import Mathlib

/-!
A shallow embedding of the AI-Research-Paper-Triage repository
(src/ai_analyzer.py, src/main.py, src/csv_writer.py, src/sheets_writer.py)
together with theorems settling the specification claims.

Python strings are modelled as `String` / `List Char`; parsed JSON values as
the inductive `JVal` (Python floats are modelled as rationals, with `int()`
truncating toward zero as CPython does); Python dicts produced by
`json.loads` as association lists `List (String × JVal)`; filesystem and
network effects as explicit state or outcome parameters.
-/

namespace Triage

/-- A parsed JSON value as produced by Python's json.loads: null, bool,
int, float (modelled as a rational), string, array, object. -/
inductive JVal where
  | null : JVal
  | bool : Bool → JVal
  | int : Int → JVal
  | float : Rat → JVal
  | str : String → JVal
  | arr : List JVal → JVal
  | obj : List (String × JVal) → JVal

/-- Python whitespace test used by str.strip (ASCII whitespace chars). -/
def isSpace (c : Char) : Bool :=
  c = ' ' || c = '\t' || c = '\n' || c = '\r' || c = '\x0b' || c = '\x0c'

/-- Drop leading whitespace from a character list (left part of str.strip). -/
def lstrip : List Char → List Char
  | [] => []
  | c :: cs => if isSpace c then lstrip cs else c :: cs

/-- Python str.strip on a character list: drop leading and trailing whitespace. -/
def pstrip (s : List Char) : List Char :=
  (lstrip (lstrip s.reverse).reverse)

/-- Python str.strip on a String. -/
def pyStrip (s : String) : String := ⟨pstrip s.data⟩

/-- Index of the first occurrence of a character (Python str.find;
none models the -1 result). -/
def findChar (c : Char) : List Char → Option Nat
  | [] => none
  | x :: xs => if x = c then some 0 else (findChar c xs).map (· + 1)

/-- Index of the last occurrence of a character (Python str.rfind). -/
def rfindChar (c : Char) (s : List Char) : Option Nat :=
  (findChar c s.reverse).map (fun i => s.length - 1 - i)

/-- The candidate-JSON extraction span of AIAnalyzer._parse_response
(src/ai_analyzer.py lines 142-148): from the first left brace to the last
right brace inclusive (Python slice text[start:end+1]); if either brace is
absent, the whole text. -/
def extractSpan (s : List Char) : List Char :=
  match findChar '{' s, rfindChar '}' s with
  | some i, some j => (s.take (j + 1)).drop i
  | _, _ => s

/-- The candidate JSON payload chosen by AIAnalyzer._parse_response
(src/ai_analyzer.py lines 139-148): strip the raw response, then take the
brace-delimited span. -/
def candidatePayload (s : List Char) : List Char := extractSpan (pstrip s)

/-- Parse a whole character list as a decimal numeral (helper for Python
int() applied to a string). -/
def decAux : List Char → Nat → Option Nat
  | [], acc => some acc
  | c :: cs, acc =>
      if c.isDigit then decAux cs (acc * 10 + (c.toNat - 48)) else none

/-- Python int() applied to a string: strip whitespace, optional sign,
then a nonempty run of decimal digits; anything else raises (none). -/
def pyIntOfString (s : String) : Option Int :=
  match pstrip s.data with
  | '+' :: cs => if cs = [] then none else (decAux cs 0).map (fun n => (n : Int))
  | '-' :: cs => if cs = [] then none else (decAux cs 0).map (fun n => -(n : Int))
  | cs => if cs = [] then none else (decAux cs 0).map (fun n => (n : Int))

/-- Python int() applied to a parsed JSON value: ints pass through, bools
are 0/1, floats truncate toward zero, strings parse as decimal numerals;
null, arrays and objects raise TypeError (none). -/
def intCoerce : JVal → Option Int
  | .int n => some n
  | .bool b => some (if b then 1 else 0)
  | .float q => some (Int.tdiv q.num (q.den : Int))
  | .str s => pyIntOfString s
  | .null => none
  | .arr _ => none
  | .obj _ => none

/-- The eight required fields of an analysis record
(src/ai_analyzer.py lines 154-157). -/
def requiredFields : List String :=
  ["title", "authors", "research_area", "relevance_score",
   "key_findings", "methodology", "performance_metrics", "recommended_action"]

/-- Python `field in analysis` for a dict modelled as an association list. -/
def hasField (fs : List (String × JVal)) (k : String) : Bool :=
  fs.any (fun p => p.1 = k)

/-- Python `analysis[k]` lookup (first binding of the key). -/
def getField (fs : List (String × JVal)) (k : String) : Option JVal :=
  (fs.find? (fun p => p.1 = k)).map (·.2)

/-- Python `analysis.get(k, d)` lookup with default. -/
def getFieldD (fs : List (String × JVal)) (k : String) (d : JVal) : JVal :=
  (getField fs k).getD d

/-- Python `analysis[k] = v` dict update for a key already present. -/
def setField (fs : List (String × JVal)) (k : String) (v : JVal) :
    List (String × JVal) :=
  fs.map (fun p => if p.1 = k then (p.1, v) else p)

/-- The required fields absent from the payload
(src/ai_analyzer.py line 159). -/
def missingFields (fs : List (String × JVal)) : List String :=
  requiredFields.filter (fun k => !(hasField fs k))

/-- The relevance-score fixup of AIAnalyzer._parse_response
(src/ai_analyzer.py lines 163-171): coerce the stored value with int();
if coercion succeeds and the result is out of [1,10], overwrite with the
clamp max 1 (min 10 score); if coercion raises, overwrite with 5; if the
coerced value is already in range, the dict is left unchanged. -/
def fixupScore (fs : List (String × JVal)) : List (String × JVal) :=
  match intCoerce (getFieldD fs "relevance_score" .null) with
  | some score =>
      if 1 ≤ score ∧ score ≤ 10 then fs
      else setField fs "relevance_score" (.int (max 1 (min 10 score)))
  | none => setField fs "relevance_score" (.int 5)

/-- The post-parse validation of AIAnalyzer._parse_response
(src/ai_analyzer.py lines 153-173) on an already-parsed JSON object:
raise ValueError listing the missing required fields if any are absent,
otherwise apply the score fixup and return the dict. -/
def validateAnalysis (fs : List (String × JVal)) :
    Except (List String) (List (String × JVal)) :=
  if missingFields fs ≠ [] then .error (missingFields fs)
  else .ok (fixupScore fs)

/-- The fixed ten column headers shared by CSVWriter.HEADERS
(src/csv_writer.py lines 20-31) and SheetsWriter.HEADERS
(src/sheets_writer.py lines 26-37). -/
def HEADERS : List String :=
  ["Timestamp", "Filename", "Title", "Authors", "Research Area",
   "Relevance Score", "Key Findings", "Methodology",
   "Performance Metrics", "Recommended Action"]

/-- The row assembled by CSVWriter.write_analysis
(src/csv_writer.py lines 78-89): timestamp, filename, then the six text
fields with default N/A, research_area with default Other, and the
relevance score with default N/A. -/
def csvRowData (analysis : List (String × JVal)) (filename timestamp : String) :
    List JVal :=
  [.str timestamp,
   .str filename,
   getFieldD analysis "title" (.str "N/A"),
   getFieldD analysis "authors" (.str "N/A"),
   getFieldD analysis "research_area" (.str "Other"),
   getFieldD analysis "relevance_score" (.str "N/A"),
   getFieldD analysis "key_findings" (.str "N/A"),
   getFieldD analysis "methodology" (.str "N/A"),
   getFieldD analysis "performance_metrics" (.str "N/A"),
   getFieldD analysis "recommended_action" (.str "N/A")]

/-- The row assembled by SheetsWriter.write_analysis
(src/sheets_writer.py lines 127-138); identical column logic. -/
def sheetsRowData (analysis : List (String × JVal)) (filename timestamp : String) :
    List JVal :=
  [.str timestamp,
   .str filename,
   getFieldD analysis "title" (.str "N/A"),
   getFieldD analysis "authors" (.str "N/A"),
   getFieldD analysis "research_area" (.str "Other"),
   getFieldD analysis "relevance_score" (.str "N/A"),
   getFieldD analysis "key_findings" (.str "N/A"),
   getFieldD analysis "methodology" (.str "N/A"),
   getFieldD analysis "performance_metrics" (.str "N/A"),
   getFieldD analysis "recommended_action" (.str "N/A")]

/-- CSVWriter.write_analysis (src/csv_writer.py lines 61-101): build the row
and attempt the append; appendOk models whether the file append raises.
Returns the success flag and the row recorded in the store (none when the
append failed: the exception is caught, logged, and False is returned). -/
def csvWriteAnalysis (analysis : List (String × JVal))
    (filename timestamp : String) (appendOk : Bool) :
    Bool × Option (List JVal) :=
  let row := csvRowData analysis filename timestamp
  if appendOk then (true, some row) else (false, none)

/-- SheetsWriter.write_analysis (src/sheets_writer.py lines 110-148):
same shape, with append_row as the fallible effect. -/
def sheetsWriteAnalysis (analysis : List (String × JVal))
    (filename timestamp : String) (appendOk : Bool) :
    Bool × Option (List JVal) :=
  let row := sheetsRowData analysis filename timestamp
  if appendOk then (true, some row) else (false, none)

/-- CSVWriter._initialize_csv (src/csv_writer.py lines 47-59) acting on the
store contents: none models a nonexistent file, some rows an existing file
with those rows. Returns the resulting contents and whether a header row
was written: the header is written exactly when the file does not exist. -/
def initializeCsv (store : Option (List (List String))) :
    List (List String) × Bool :=
  match store with
  | none => ([HEADERS], true)
  | some rows => (rows, false)

/-- SheetsWriter._setup_sheet (src/sheets_writer.py lines 86-108) acting on
the sheet contents: none models a missing spreadsheet, some rows an existing
one. A missing sheet is created with the header; an existing sheet gets the
header inserted as a new first row exactly when its current first row
(empty list when the sheet is empty) differs from HEADERS. -/
def setupSheet (store : Option (List (List String))) :
    List (List String) × Bool :=
  match store with
  | none => ([HEADERS], true)
  | some rows =>
      if rows.headD [] ≠ HEADERS then (HEADERS :: rows, true) else (rows, false)

/-- Decimal digit characters of a natural number, most significant first
(helper with explicit fuel so that evaluation is kernel-reducible). -/
def natToDecAux : Nat → Nat → List Char
  | 0, _ => []
  | fuel + 1, n =>
      if n = 0 then [] else natToDecAux fuel (n / 10) ++ [Nat.digitChar (n % 10)]

/-- Decimal rendering of a natural number, modelling the Python f-string
interpolation of the archive counter. -/
def natToDec (n : Nat) : String :=
  if n = 0 then "0" else ⟨natToDecAux n n⟩

/-- The candidate collision-avoiding name stem_counter.pdf built by
PaperHandler.process_paper (src/main.py line 119). -/
def archCand (stem : String) (k : Nat) : String :=
  stem ++ "_" ++ natToDec k ++ ".pdf"

/-- The while loop of PaperHandler.process_paper (src/main.py lines 116-120):
starting from candidate cand with counter k, as long as the candidate exists
in the destination, move to stem_k.pdf and increment. ex is the set of names
already present in the destination directory; fuel bounds the iteration so
the function is total (none models a run that did not terminate within
fuel steps, which sufficient fuel rules out). -/
def archiveLoop (ex : String → Bool) (stem : String) :
    Nat → String → Nat → Option String
  | 0, _, _ => none
  | fuel + 1, cand, k =>
      if ex cand then archiveLoop ex stem fuel (archCand stem k) (k + 1)
      else some cand

/-- The archive-name computation of PaperHandler.process_paper
(src/main.py lines 113-120): first candidate is the original file name,
counter starts at 1. -/
def archiveName (ex : String → Bool) (name stem : String) (fuel : Nat) :
    Option String :=
  archiveLoop ex stem fuel name 1

/-- Observable events of one run of PaperHandler.process_paper
(src/main.py lines 90-132), in order of occurrence. -/
inductive PEvent where
  | extracted : PEvent
  | skippedEmptyText : PEvent
  | analyzed : PEvent
  | rowAppended : PEvent
  | writeFailed : PEvent
  | archived : PEvent
  | errorCaught : PEvent
deriving DecidableEq, Repr

/-- The event trace of one run of PaperHandler.process_paper
(src/main.py lines 90-132): extract (none models an exception from the
extractor); return early when the stripped text is empty; analyze (false
models an exception from the analyzer, caught by the outer handler);
write the row (write_analysis returns False on append failure, and the
pipeline then returns without archiving); finally move the file. -/
def processPaper (extractRes : Option String) (analyzeOk writeOk : Bool) :
    List PEvent :=
  match extractRes with
  | none => [.errorCaught]
  | some text =>
      if pyStrip text = "" then [.extracted, .skippedEmptyText]
      else if !analyzeOk then [.extracted, .errorCaught]
      else if !writeOk then [.extracted, .analyzed, .writeFailed]
      else [.extracted, .analyzed, .rowAppended, .archived]

/-- The atomic actions of PaperHandler.on_created after a .pdf creation
event is accepted (src/main.py lines 66-77): the in-flight membership check,
the settle sleep, adding the path to the in-flight set, running the
per-file pipeline, and the finally-block removal. -/
inductive HAct where
  | guard : HAct
  | settle : HAct
  | add : HAct
  | runPipe : HAct
  | release : HAct
deriving DecidableEq, Repr

/-- The action sequence of PaperHandler.on_created as written in the source
(src/main.py lines 66-77): the guard check, then the one-second settle
sleep (line 70), then the add to the in-flight set (line 72), then the
pipeline, then the removal in the finally block. -/
def onCreatedActs : List HAct := [.guard, .settle, .add, .runPipe, .release]

/-- Handler state for the interleaving semantics: whether the fixed path is
in the in-flight set, and how many pipeline executions have occurred. -/
structure HState where
  inflight : Bool
  runs : Nat
deriving DecidableEq, Repr

/-- Effect of one non-guard action on the handler state. -/
def execAct : HAct → HState → HState
  | .settle, s => s
  | .add, s => { s with inflight := true }
  | .release, s => { s with inflight := false }
  | .runPipe, s => { s with runs := s.runs + 1 }
  | .guard, s => s

/-- Execute one step of a handler thread: the guard aborts the thread when
the path is already in-flight (the early return at src/main.py line 67);
every other action takes effect and the thread advances. -/
def stepThread : List HAct → HState → List HAct × HState
  | [], s => ([], s)
  | .guard :: rest, s => if s.inflight then ([], s) else (rest, s)
  | a :: rest, s => (rest, execAct a s)

/-- Run a handler thread to completion without interruption. -/
def drain : List HAct → HState → HState
  | [], s => s
  | .guard :: rest, s => if s.inflight then s else drain rest s
  | a :: rest, s => drain rest (execAct a s)

/-- Interleave two handler threads for the same path: each schedule entry
picks which thread performs its next atomic step (true = first thread);
when the schedule is exhausted, the first thread finishes, then the second.
This models two watchdog deliveries of creation events for the identical
path being handled concurrently. -/
def interleave : List Bool → List HAct → List HAct → HState → HState
  | [], t1, t2, s => drain t2 (drain t1 s)
  | b :: bs, t1, t2, s =>
      if b then
        let p := stepThread t1 s
        interleave bs p.1 t2 p.2
      else
        let p := stepThread t2 s
        interleave bs t1 p.1 p.2

/-- Does a JSON value carry an integer in [1,10] (the property the spec
asserts of the returned relevance_score)? -/
def intInRange : JVal → Bool
  | .int n => decide (1 ≤ n ∧ n ≤ 10)
  | _ => false

/-- A complete payload whose relevance_score arrives as the numeric
string "7". -/
def payloadStr7 : List (String × JVal) :=
  [("title", .str "T"), ("authors", .str "A"), ("research_area", .str "LLMs"),
   ("relevance_score", .str "7"), ("key_findings", .str "K"),
   ("methodology", .str "M"), ("performance_metrics", .str "P"),
   ("recommended_action", .str "Skim")]

/-- A complete payload whose relevance_score is the out-of-range
integer 15. -/
def payloadInt15 : List (String × JVal) :=
  [("title", .str "T"), ("authors", .str "A"), ("research_area", .str "LLMs"),
   ("relevance_score", .int 15), ("key_findings", .str "K"),
   ("methodology", .str "M"), ("performance_metrics", .str "P"),
   ("recommended_action", .str "Skim")]

/-- A complete payload with an additional ninth key beyond the eight
required fields. -/
def payloadExtra : List (String × JVal) :=
  [("title", .str "T"), ("authors", .str "A"), ("research_area", .str "LLMs"),
   ("relevance_score", .int 7), ("key_findings", .str "K"),
   ("methodology", .str "M"), ("performance_metrics", .str "P"),
   ("recommended_action", .str "Skim"), ("extra_note", .str "bar")]

/- ### Helper lemmas about the dict operations -/

theorem hasField_false_find? {fs : List (String × JVal)} {k : String}
    (h : hasField fs k = false) : fs.find? (fun p => p.1 = k) = none := by
  induction fs with
  | nil => rfl
  | cons a t ih =>
      simp only [hasField, List.any_cons, Bool.or_eq_false_iff] at h
      simp only [List.find?_cons, h.1]
      exact ih h.2

theorem getFieldD_default {fs : List (String × JVal)} {k : String} {d : JVal}
    (h : hasField fs k = false) : getFieldD fs k d = d := by
  simp [getFieldD, getField, hasField_false_find? h]

theorem getField_setField_same {fs : List (String × JVal)} {k : String}
    (v : JVal) (h : hasField fs k = true) :
    getField (setField fs k v) k = some v := by
  induction fs with
  | nil => simp [hasField] at h
  | cons a t ih =>
      by_cases hk : a.1 = k
      · simp [getField, setField, List.find?_cons, hk]
      · simp only [hasField, List.any_cons, decide_eq_true_eq, hk,
          false_or] at h
        simpa [getField, setField, List.find?_cons, hk] using ih h

theorem getField_setField_ne {fs : List (String × JVal)} {k k2 : String}
    (v : JVal) (h : k2 ≠ k) :
    getField (setField fs k v) k2 = getField fs k2 := by
  induction fs with
  | nil => rfl
  | cons a t ih =>
      obtain ⟨a1, a2⟩ := a
      by_cases h2 : a1 = k2
      · subst h2
        simp [getField, setField, List.find?_cons, h]
      · by_cases hk : a1 = k
        · subst hk
          simpa [getField, setField, List.find?_cons, h2, Ne.symm h] using ih
        · simpa [getField, setField, List.find?_cons, h2, hk] using ih

theorem map_fst_setField (fs : List (String × JVal)) (k : String) (v : JVal) :
    (setField fs k v).map Prod.fst = fs.map Prod.fst := by
  induction fs with
  | nil => rfl
  | cons a t ih =>
      by_cases hk : a.1 = k <;> simp [setField, hk] at ih ⊢ <;> exact ih

theorem hasField_of_required {fs : List (String × JVal)} {k : String}
    (hmiss : missingFields fs = []) (hk : k ∈ requiredFields) :
    hasField fs k = true := by
  have := List.filter_eq_nil_iff.mp hmiss k hk
  simpa using this

theorem validateAnalysis_ok_iff {fs r : List (String × JVal)} :
    validateAnalysis fs = .ok r ↔ missingFields fs = [] ∧ r = fixupScore fs := by
  unfold validateAnalysis
  by_cases h : missingFields fs = [] <;> simp [h, eq_comm]

/-- C7: whenever the parsed payload omits one or more of the eight required
fields, validation fails with an error listing exactly the missing required
fields (a field is listed iff it is required and absent), and no record is
returned. -/
theorem C7_missing_fields_hard_error (fs : List (String × JVal))
    (h : ∃ k ∈ requiredFields, hasField fs k = false) :
    ∃ ms, validateAnalysis fs = .error ms ∧
      ∀ k, k ∈ ms ↔ (k ∈ requiredFields ∧ hasField fs k = false) := by
  obtain ⟨k0, hk0, hk0f⟩ := h
  have hne : missingFields fs ≠ [] := by
    intro hnil
    have := hasField_of_required hnil hk0
    rw [this] at hk0f
    exact Bool.noConfusion hk0f
  refine ⟨missingFields fs, ?_, ?_⟩
  · simp [validateAnalysis, hne]
  · intro k
    simp [missingFields, List.mem_filter]

/-- C7 witness: a payload holding only the title is rejected with exactly
the other seven required fields reported missing. -/
theorem C7_missing_fields_hard_error_witness :
    ∃ ms, validateAnalysis [("title", JVal.str "T")] = .error ms ∧
      ∀ k, k ∈ ms ↔
        (k ∈ requiredFields ∧ hasField [("title", JVal.str "T")] k = false) :=
  C7_missing_fields_hard_error [("title", JVal.str "T")]
    ⟨"authors", by decide, by rfl⟩

/-- C6: for a payload with all eight fields, a relevance_score coercing to
an integer below 1 is replaced by 1, above 10 by 10, and a score whose
coercion fails is replaced by 5. -/
theorem C6_score_clamp_and_default (fs r : List (String × JVal))
    (hok : validateAnalysis fs = .ok r) :
    (∀ s : Int, intCoerce (getFieldD fs "relevance_score" .null) = some s →
      (s < 1 → getField r "relevance_score" = some (.int 1)) ∧
      (10 < s → getField r "relevance_score" = some (.int 10))) ∧
    (intCoerce (getFieldD fs "relevance_score" .null) = none →
      getField r "relevance_score" = some (.int 5)) := by
  obtain ⟨hmiss, hr⟩ := validateAnalysis_ok_iff.mp hok
  have hhas : hasField fs "relevance_score" = true :=
    hasField_of_required hmiss (by decide)
  subst hr
  constructor
  · intro s hs
    constructor
    · intro hlt
      have hcond : ¬(1 ≤ s ∧ s ≤ 10) := by omega
      have hfix : fixupScore fs =
          setField fs "relevance_score" (.int (max 1 (min 10 s))) := by
        simp only [fixupScore, hs, if_neg hcond]
      have hone : max 1 (min 10 s) = 1 := by omega
      rw [hfix, hone]
      exact getField_setField_same _ hhas
    · intro hgt
      have hcond : ¬(1 ≤ s ∧ s ≤ 10) := by omega
      have hfix : fixupScore fs =
          setField fs "relevance_score" (.int (max 1 (min 10 s))) := by
        simp only [fixupScore, hs, if_neg hcond]
      have hten : max 1 (min 10 s) = 10 := by omega
      rw [hfix, hten]
      exact getField_setField_same _ hhas
  · intro hn
    have hfix : fixupScore fs = setField fs "relevance_score" (.int 5) := by
      simp only [fixupScore, hn]
    rw [hfix]
    exact getField_setField_same _ hhas

/-- C6 witness: the out-of-range score 15 is clamped to 10 on a concrete
complete payload. -/
theorem C6_score_clamp_and_default_witness :
    getField (fixupScore payloadInt15) "relevance_score" = some (.int 10) := by
  have h := C6_score_clamp_and_default payloadInt15 (fixupScore payloadInt15)
    (by rfl)
  exact (h.1 15 (by rfl)).2 (by omega)

/-- C1 counterexample: on a complete payload whose relevance_score arrives
as the numeric string "7", validation returns the payload unchanged, so the
returned record's relevance_score is the string "7" and not an integer in
[1,10] — the in-range coercion result is never written back. -/
theorem C1_cex_string_score_not_coerced :
    validateAnalysis payloadStr7 = .ok payloadStr7 ∧
    getFieldD payloadStr7 "relevance_score" .null = .str "7" ∧
    intInRange (.str "7") = false :=
  ⟨rfl, rfl, rfl⟩

/-- C1 (amended): the stored relevance_score is replaced by an integer only
in the clamp and coercion-failure paths; when the payload's value coerces to
an in-range integer the record is returned unchanged, original value
included. In every success case the returned relevance_score int-coerces to
an integer in [1,10], but need not itself be an integer. -/
theorem C1_amended_score_coerces_in_range (fs r : List (String × JVal))
    (hok : validateAnalysis fs = .ok r) :
    (∃ n : Int, intCoerce (getFieldD r "relevance_score" .null) = some n ∧
      1 ≤ n ∧ n ≤ 10) ∧
    (∀ s : Int, intCoerce (getFieldD fs "relevance_score" .null) = some s →
      1 ≤ s → s ≤ 10 → r = fs) := by
  obtain ⟨hmiss, hr⟩ := validateAnalysis_ok_iff.mp hok
  have hhas : hasField fs "relevance_score" = true :=
    hasField_of_required hmiss (by decide)
  subst hr
  constructor
  · rcases hco : intCoerce (getFieldD fs "relevance_score" .null) with _ | s
    · have hfix : fixupScore fs = setField fs "relevance_score" (.int 5) := by
        simp only [fixupScore, hco]
      refine ⟨5, ?_, by omega, by omega⟩
      have hget : getField (fixupScore fs) "relevance_score" = some (.int 5) := by
        rw [hfix]; exact getField_setField_same _ hhas
      simp [getFieldD, hget, intCoerce]
    · by_cases hcond : 1 ≤ s ∧ s ≤ 10
      · have hfix : fixupScore fs = fs := by
          simp only [fixupScore, hco, if_pos hcond]
        refine ⟨s, ?_, hcond.1, hcond.2⟩
        rw [hfix]
        exact hco
      · have hfix : fixupScore fs =
            setField fs "relevance_score" (.int (max 1 (min 10 s))) := by
          simp only [fixupScore, hco, if_neg hcond]
        refine ⟨max 1 (min 10 s), ?_, by omega, by omega⟩
        have hget : getField (fixupScore fs) "relevance_score" =
            some (.int (max 1 (min 10 s))) := by
          rw [hfix]; exact getField_setField_same _ hhas
        simp [getFieldD, hget, intCoerce]
  · intro s hs h1 h10
    simp only [fixupScore, hs, if_pos (And.intro h1 h10)]

/-- C1 witness: on the string-"7" payload the theorem yields an in-range
coercion of the returned score and the record returned unchanged. -/
theorem C1_amended_score_coerces_in_range_witness :
    (∃ n : Int, intCoerce (getFieldD payloadStr7 "relevance_score" .null) =
      some n ∧ 1 ≤ n ∧ n ≤ 10) ∧ fixupScore payloadStr7 = payloadStr7 := by
  have h := C1_amended_score_coerces_in_range payloadStr7 payloadStr7 (by rfl)
  exact ⟨by simpa using h.1, h.2 7 (by rfl) (by omega) (by omega)⟩

/-- C4 counterexample: a ninth key present in the parsed payload is still
present in the record validation returns — the record is not a projection
onto the eight recognized fields. -/
theorem C4_cex_extra_key_retained :
    validateAnalysis payloadExtra = .ok payloadExtra ∧
    getField payloadExtra "extra_note" = some (.str "bar") :=
  ⟨rfl, rfl⟩

/-- C4 (amended): the returned record is the parsed payload itself with only
the relevance_score value possibly rewritten: the key sequence is preserved
and every key other than relevance_score keeps its payload value, extra keys
included. -/
theorem C4_amended_extra_keys_kept (fs r : List (String × JVal))
    (hok : validateAnalysis fs = .ok r) :
    r.map Prod.fst = fs.map Prod.fst ∧
    ∀ k, k ≠ "relevance_score" → getField r k = getField fs k := by
  obtain ⟨_, hr⟩ := validateAnalysis_ok_iff.mp hok
  subst hr
  rcases hco : intCoerce (getFieldD fs "relevance_score" .null) with _ | s
  · have hfix : fixupScore fs = setField fs "relevance_score" (.int 5) := by
      simp only [fixupScore, hco]
    rw [hfix]
    exact ⟨map_fst_setField fs _ _, fun k hk => getField_setField_ne _ hk⟩
  · by_cases hcond : 1 ≤ s ∧ s ≤ 10
    · have hfix : fixupScore fs = fs := by
        simp only [fixupScore, hco, if_pos hcond]
      rw [hfix]
      exact ⟨rfl, fun _ _ => rfl⟩
    · have hfix : fixupScore fs =
          setField fs "relevance_score" (.int (max 1 (min 10 s))) := by
        simp only [fixupScore, hco, if_neg hcond]
      rw [hfix]
      exact ⟨map_fst_setField fs _ _, fun k hk => getField_setField_ne _ hk⟩

/-- C4 witness: on the concrete payload with the extra ninth key, the
returned record keeps the extra key's value. -/
theorem C4_amended_extra_keys_kept_witness :
    getField (fixupScore payloadExtra) "extra_note" =
      getField payloadExtra "extra_note" := by
  have h := C4_amended_extra_keys_kept payloadExtra (fixupScore payloadExtra)
    (by rfl)
  exact h.2 "extra_note" (by decide)

/-- C5: in every per-file pipeline run, a PDF with empty or whitespace-only
extracted text produces no Sink row and is never archived; a failed Sink
write leaves the file un-archived; and whenever the file is archived, a row
was appended first (the archive event appears strictly after the append in
the run's trace, which is exactly the success trace). -/
theorem C5_archive_only_after_row (extractRes : Option String)
    (analyzeOk writeOk : Bool) :
    (∀ t, extractRes = some t → pyStrip t = "" →
      PEvent.rowAppended ∉ processPaper extractRes analyzeOk writeOk ∧
      PEvent.archived ∉ processPaper extractRes analyzeOk writeOk) ∧
    (writeOk = false →
      PEvent.archived ∉ processPaper extractRes analyzeOk writeOk) ∧
    (PEvent.archived ∈ processPaper extractRes analyzeOk writeOk →
      processPaper extractRes analyzeOk writeOk =
        [.extracted, .analyzed, .rowAppended, .archived]) := by
  refine ⟨?_, ?_, ?_⟩
  · intro t ht hstrip
    subst ht
    constructor <;> simp [processPaper, hstrip]
  · intro hw
    subst hw
    rcases extractRes with _ | t
    · simp [processPaper]
    · by_cases hs : pyStrip t = "" <;> rcases analyzeOk with _ | _ <;>
        simp [processPaper, hs]
  · intro h
    rcases extractRes with _ | t
    · simp [processPaper] at h
    · by_cases hs : pyStrip t = "" <;> rcases analyzeOk with _ | _ <;>
        rcases writeOk with _ | _ <;> simp [processPaper, hs] at h ⊢

/-- C5 witness: a whitespace-only extraction produces neither a row nor an
archive move, and a failed write leaves a nonempty-text run un-archived. -/
theorem C5_archive_only_after_row_witness :
    (PEvent.rowAppended ∉ processPaper (some " ") true true ∧
     PEvent.archived ∉ processPaper (some " ") true true) ∧
    PEvent.archived ∉ processPaper (some "x") true false := by
  refine ⟨(C5_archive_only_after_row (some " ") true true).1 " " rfl (by decide),
    (C5_archive_only_after_row (some "x") true false).2.1 rfl⟩

/-- C10: both Sink write operations are total: for any record (any subset of
the eight fields present) they build a row of exactly ten columns, identical
across the two backends, substituting N/A (Other for the research-area
column) for each absent field, and they return False rather than raising
when the underlying append fails. -/
theorem C10_sink_writes_total (analysis : List (String × JVal))
    (fn ts : String) :
    (∀ ok, (csvWriteAnalysis analysis fn ts ok).1 = ok ∧
           (sheetsWriteAnalysis analysis fn ts ok).1 = ok) ∧
    (csvRowData analysis fn ts).length = 10 ∧
    csvRowData analysis fn ts = sheetsRowData analysis fn ts ∧
    (hasField analysis "title" = false →
      (csvRowData analysis fn ts).get? 2 = some (.str "N/A")) ∧
    (hasField analysis "authors" = false →
      (csvRowData analysis fn ts).get? 3 = some (.str "N/A")) ∧
    (hasField analysis "research_area" = false →
      (csvRowData analysis fn ts).get? 4 = some (.str "Other")) ∧
    (hasField analysis "relevance_score" = false →
      (csvRowData analysis fn ts).get? 5 = some (.str "N/A")) ∧
    (hasField analysis "key_findings" = false →
      (csvRowData analysis fn ts).get? 6 = some (.str "N/A")) ∧
    (hasField analysis "methodology" = false →
      (csvRowData analysis fn ts).get? 7 = some (.str "N/A")) ∧
    (hasField analysis "performance_metrics" = false →
      (csvRowData analysis fn ts).get? 8 = some (.str "N/A")) ∧
    (hasField analysis "recommended_action" = false →
      (csvRowData analysis fn ts).get? 9 = some (.str "N/A")) := by
  refine ⟨fun ok => ?_, rfl, rfl, ?_, ?_, ?_, ?_, ?_, ?_, ?_, ?_⟩
  · cases ok <;> exact ⟨rfl, rfl⟩
  all_goals intro h
  all_goals simp [csvRowData, getFieldD_default h]

/-- C10 witness: on the empty record every defaulted column is filled and
the append-failure path returns False. -/
theorem C10_sink_writes_total_witness :
    (csvWriteAnalysis [] "f.pdf" "2024-01-01 00:00:00" false).1 = false ∧
    (csvRowData [] "f.pdf" "2024-01-01 00:00:00").get? 2 =
      some (.str "N/A") ∧
    (csvRowData [] "f.pdf" "2024-01-01 00:00:00").get? 4 =
      some (.str "Other") := by
  have h := C10_sink_writes_total [] "f.pdf" "2024-01-01 00:00:00"
  exact ⟨((h.1 false).1), h.2.2.2.1 rfl, h.2.2.2.2.2.1 rfl⟩

theorem setupSheet_some_eq (rows : List (List String)) :
    setupSheet (some rows) =
      if rows.headD [] ≠ HEADERS then (HEADERS :: rows, true)
      else (rows, false) := rfl

/-- C3 counterexample: the CSV backend writes no header into an existing but
empty store (the claim requires one there), and the Sheets backend inserts
the header into an existing non-empty store whose first row is not the
header (the claim forbids a write there). -/
theorem C3_cex_header_iff_fails :
    (initializeCsv (some [])).2 = false ∧
    (setupSheet (some [["x"]])).2 = true ∧ [["x"]] ≠ ([] : List (List String)) :=
  ⟨rfl, by decide, by decide⟩

/-- C3 (amended): CSVWriter writes the header iff the file does not exist
(an existing empty file gets none); SheetsWriter writes the header iff the
sheet does not exist or its first row differs from the fixed headers; and
for any store produced by an initialize call of either backend, a further
initialize writes no additional header. -/
theorem C3_amended_header_conditions :
    initializeCsv none = ([HEADERS], true) ∧
    (∀ rows, initializeCsv (some rows) = (rows, false)) ∧
    setupSheet none = ([HEADERS], true) ∧
    (∀ rows, rows.headD [] = HEADERS → setupSheet (some rows) = (rows, false)) ∧
    (∀ rows, rows.headD [] ≠ HEADERS →
      setupSheet (some rows) = (HEADERS :: rows, true)) ∧
    (∀ st, (setupSheet (some (setupSheet st).1)).2 = false ∧
           (initializeCsv (some (initializeCsv st).1)).2 = false) := by
  refine ⟨rfl, fun rows => rfl, rfl, fun rows h => ?_, fun rows h => ?_,
    fun st => ⟨?_, rfl⟩⟩
  · rw [setupSheet_some_eq, if_neg (not_not_intro h)]
  · rw [setupSheet_some_eq, if_pos h]
  · rcases st with _ | rows
    · decide
    · by_cases h : rows.headD [] = HEADERS
      · rw [setupSheet_some_eq rows, if_neg (not_not_intro h)]
        show (setupSheet (some rows)).2 = false
        rw [setupSheet_some_eq rows, if_neg (not_not_intro h)]
      · rw [setupSheet_some_eq rows, if_pos h]
        show (setupSheet (some (HEADERS :: rows))).2 = false
        simp [setupSheet_some_eq]

/-- C3 witness: a sheet whose first row is not the header gets the header
prepended, and initializing twice from a missing sheet writes it once. -/
theorem C3_amended_header_conditions_witness :
    setupSheet (some [["x"]]) = (HEADERS :: [["x"]], true) ∧
    (setupSheet (some (setupSheet none).1)).2 = false := by
  have h := C3_amended_header_conditions
  exact ⟨h.2.2.2.2.1 [["x"]] (by decide), (h.2.2.2.2.2 none).1⟩

/-- C2 counterexample: in the source the settle sleep (index 1) precedes the
add to the in-flight set (index 2), not the other way round; and in the
interleaving where the second creation event for the identical path performs
its in-flight check during the first event's settle delay, both events run
the pipeline: two executions, not exactly one. -/
theorem C2_cex_sleep_before_add_two_runs :
    onCreatedActs.indexOf HAct.settle = 1 ∧ onCreatedActs.indexOf HAct.add = 2 ∧
    (interleave [true, false] onCreatedActs onCreatedActs
      ⟨false, 0⟩).runs = 2 := by
  refine ⟨rfl, rfl, by decide⟩

/-- C2 (amended): an accepted .pdf creation event first waits the settle
delay and only then adds the path to the in-flight set; a second event for
the identical path whose in-flight check runs while the path is in-flight
(after the first event's add and before its release) is ignored, so exactly
one pipeline execution occurs in that interleaving — but a second event
whose check runs before the first event's add (during the settle delay)
passes the guard, and two pipeline executions occur. -/
theorem C2_amended_guard_window :
    onCreatedActs.indexOf HAct.settle < onCreatedActs.indexOf HAct.add ∧
    (∀ s : HState, s.inflight = true → drain onCreatedActs s = s) ∧
    (interleave [true, true, true, false] onCreatedActs onCreatedActs
      ⟨false, 0⟩).runs = 1 ∧
    (interleave [true, false] onCreatedActs onCreatedActs
      ⟨false, 0⟩).runs = 2 := by
  refine ⟨by decide, fun s hs => ?_, by decide, by decide⟩
  simp [onCreatedActs, drain, hs]

/-- C2 witness: a handler thread whose guard check finds the path already
in-flight performs no action at all. -/
theorem C2_amended_guard_window_witness :
    drain onCreatedActs ⟨true, 0⟩ = ⟨true, 0⟩ :=
  C2_amended_guard_window.2.1 ⟨true, 0⟩ rfl

/- ### Helper lemmas for the brace-span extraction -/

theorem findChar_eq_none {c : Char} :
    ∀ {s : List Char}, c ∉ s → findChar c s = none := by
  intro s
  induction s with
  | nil => intro _; rfl
  | cons x xs ih =>
      intro h
      simp only [List.mem_cons, not_or] at h
      simp [findChar, Ne.symm h.1, ih h.2]

theorem findChar_append_first {c : Char} {r : List Char} :
    ∀ {p : List Char}, (∀ x ∈ p, x ≠ c) →
      findChar c (p ++ c :: r) = some p.length := by
  intro p
  induction p with
  | nil => intro _; simp [findChar]
  | cons x xs ih =>
      intro hp
      have hx : x ≠ c := hp x (List.mem_cons_self x xs)
      have hxs : ∀ y ∈ xs, y ≠ c := fun y hy => hp y (List.mem_cons_of_mem x hy)
      simp [findChar, hx, ih hxs]

theorem rfindChar_last {c : Char} {l q : List Char} (hq : ∀ x ∈ q, x ≠ c) :
    rfindChar c (l ++ c :: q) = some l.length := by
  have hrev : (l ++ c :: q).reverse = q.reverse ++ c :: l.reverse := by
    simp [List.reverse_append, List.append_assoc]
  have hq2 : ∀ x ∈ q.reverse, x ≠ c := fun x hx => hq x (List.mem_reverse.mp hx)
  rw [rfindChar, hrev, findChar_append_first hq2]
  simp only [Option.map_some', Option.some.injEq, List.length_reverse,
    List.length_append, List.length_cons]
  omega

theorem extractSpan_eq_of {s : List Char} {i j : Nat}
    (h1 : findChar '{' s = some i) (h2 : rfindChar '}' s = some j) :
    extractSpan s = (s.take (j + 1)).drop i := by
  unfold extractSpan
  rw [h1, h2]

theorem extractSpan_none_left {s : List Char} (h : findChar '{' s = none) :
    extractSpan s = s := by
  unfold extractSpan
  rw [h]

theorem extractSpan_none_right {s : List Char} (h : rfindChar '}' s = none) :
    extractSpan s = s := by
  unfold extractSpan
  rw [h]
  cases findChar '{' s <;> rfl

theorem extractSpan_wrapped {p m q : List Char}
    (hp : ∀ x ∈ p, x ≠ '{') (hq : ∀ x ∈ q, x ≠ '}') :
    extractSpan (p ++ '{' :: (m ++ '}' :: q)) = '{' :: (m ++ ['}']) := by
  have hassoc : p ++ '{' :: (m ++ '}' :: q) = (p ++ '{' :: m) ++ '}' :: q := by
    simp [List.append_assoc]
  have h1 : findChar '{' (p ++ '{' :: (m ++ '}' :: q)) = some p.length :=
    findChar_append_first hp
  have h2 : rfindChar '}' (p ++ '{' :: (m ++ '}' :: q)) =
      some (p.length + (m.length + 1)) := by
    rw [hassoc, rfindChar_last hq]
    simp [List.length_append]
  rw [extractSpan_eq_of h1 h2,
    show p.length + (m.length + 1) + 1 = p.length + (m.length + 2) from by omega,
    List.take_append, List.drop_left,
    show m.length + 2 = (m.length + 1) + 1 from rfl, List.take_succ_cons,
    List.take_append 1]
  simp

theorem mem_of_mem_lstrip {c : Char} :
    ∀ {s : List Char}, c ∈ lstrip s → c ∈ s := by
  intro s
  induction s with
  | nil => intro h; exact h
  | cons x xs ih =>
      intro h
      simp only [lstrip] at h
      by_cases hx : isSpace x
      · rw [if_pos hx] at h
        exact List.mem_cons_of_mem x (ih h)
      · rwa [if_neg hx] at h

theorem mem_of_mem_pstrip {c : Char} {s : List Char} (h : c ∈ pstrip s) :
    c ∈ s := by
  unfold pstrip at h
  have h1 := mem_of_mem_lstrip h
  have h2 := List.mem_reverse.mp h1
  have h3 := mem_of_mem_lstrip h2
  exact List.mem_reverse.mp h3

theorem lstrip_append {c : Char} (hc : isSpace c = false) :
    ∀ (p cs : List Char), ∃ t, (∀ x ∈ t, x ∈ p) ∧
      lstrip (p ++ c :: cs) = t ++ c :: cs := by
  intro p
  induction p with
  | nil =>
      intro cs
      exact ⟨[], by simp, by simp [lstrip, hc]⟩
  | cons x xs ih =>
      intro cs
      by_cases hx : isSpace x
      · obtain ⟨t, ht1, ht2⟩ := ih cs
        refine ⟨t, fun y hy => List.mem_cons_of_mem x (ht1 y hy), ?_⟩
        rw [List.cons_append]
        simp only [lstrip, if_pos hx]
        exact ht2
      · refine ⟨x :: xs, fun y hy => hy, ?_⟩
        rw [List.cons_append]
        simp only [lstrip, if_neg hx]

theorem pstrip_wrapped (p m q : List Char) :
    ∃ p2 q2, (∀ x ∈ p2, x ∈ p) ∧ (∀ x ∈ q2, x ∈ q) ∧
      pstrip (p ++ '{' :: (m ++ '}' :: q)) = p2 ++ '{' :: (m ++ '}' :: q2) := by
  have hrb : isSpace '}' = false := rfl
  have hlb : isSpace '{' = false := rfl
  have hrev : (p ++ '{' :: (m ++ '}' :: q)).reverse
      = q.reverse ++ '}' :: (m.reverse ++ '{' :: p.reverse) := by
    simp [List.reverse_append, List.append_assoc]
  obtain ⟨t, ht1, ht2⟩ := lstrip_append hrb q.reverse (m.reverse ++ '{' :: p.reverse)
  have hmid : (lstrip (p ++ '{' :: (m ++ '}' :: q)).reverse).reverse
      = p ++ '{' :: (m ++ '}' :: t.reverse) := by
    rw [hrev, ht2]
    simp [List.reverse_append, List.append_assoc]
  obtain ⟨t2, ht21, ht22⟩ := lstrip_append hlb p (m ++ '}' :: t.reverse)
  refine ⟨t2, t.reverse, ht21, ?_, ?_⟩
  · intro x hx
    exact List.mem_reverse.mp (ht1 x (List.mem_reverse.mp hx))
  · unfold pstrip
    rw [hmid]
    exact ht22

/-- C8: the candidate JSON payload is the span from the first left brace to
the last right brace of the stripped response (shown here for any response
of shape prose-object-prose with brace-free prose: exactly the enclosed
object is extracted, its inner braces notwithstanding), and when the text
lacks a left or a right brace the full stripped response text is used. -/
theorem C8_candidate_payload_extraction :
    (∀ p m q : List Char, (∀ x ∈ p, x ≠ '{' ∧ x ≠ '}') →
      (∀ x ∈ q, x ≠ '{' ∧ x ≠ '}') →
      candidatePayload (p ++ '{' :: (m ++ '}' :: q)) = '{' :: (m ++ ['}'])) ∧
    (∀ s : List Char, '{' ∉ s ∨ '}' ∉ s → candidatePayload s = pstrip s) := by
  constructor
  · intro p m q hp hq
    obtain ⟨p2, q2, hp2, hq2, heq⟩ := pstrip_wrapped p m q
    unfold candidatePayload
    rw [heq]
    exact extractSpan_wrapped (fun x hx => (hp x (hp2 x hx)).1)
      (fun x hx => (hq x (hq2 x hx)).2)
  · intro s hs
    unfold candidatePayload
    rcases hs with hs | hs
    · exact extractSpan_none_left
        (findChar_eq_none (fun hc => hs (mem_of_mem_pstrip hc)))
    · refine extractSpan_none_right ?_
      rw [rfindChar, findChar_eq_none]
      · rfl
      · intro hc
        exact hs (mem_of_mem_pstrip (List.mem_reverse.mp hc))

/-- C8 witness: a concrete response with prose before and after a JSON
object yields exactly the enclosed object, and a brace-free response is
returned whole (stripped). -/
theorem C8_candidate_payload_extraction_witness :
    candidatePayload ("Sure! ".data ++ '{' :: ("\"a\": 1".data ++ '}' :: " Bye.".data))
      = '{' :: ("\"a\": 1".data ++ ['}']) ∧
    candidatePayload "no json here".data = pstrip "no json here".data := by
  refine ⟨C8_candidate_payload_extraction.1 "Sure! ".data "\"a\": 1".data
    " Bye.".data (by decide) (by decide),
    C8_candidate_payload_extraction.2 "no json here".data (Or.inl (by decide))⟩

/- ### Helper lemmas for the archive collision naming -/

theorem natToDecAux_eq_digits :
    ∀ fuel n, n ≤ fuel →
      natToDecAux fuel n = ((Nat.digits 10 n).map Nat.digitChar).reverse := by
  intro fuel
  induction fuel with
  | zero =>
      intro n hn
      have h0 : n = 0 := by omega
      subst h0
      simp [natToDecAux]
  | succ f ih =>
      intro n hn
      by_cases h0 : n = 0
      · subst h0
        simp [natToDecAux]
      · have hdiv : n / 10 ≤ f := by
          have : n / 10 < n := Nat.div_lt_self (Nat.pos_of_ne_zero h0) (by omega)
          omega
        simp only [natToDecAux, if_neg h0]
        rw [ih _ hdiv,
          Nat.digits_def' (by norm_num : (1 : Nat) < 10) (Nat.pos_of_ne_zero h0)]
        simp

theorem digitChar_inj_lt10 :
    ∀ a, a < 10 → ∀ b, b < 10 → Nat.digitChar a = Nat.digitChar b → a = b := by
  decide

theorem map_digitChar_inj :
    ∀ xs ys : List Nat, (∀ x ∈ xs, x < 10) → (∀ y ∈ ys, y < 10) →
      xs.map Nat.digitChar = ys.map Nat.digitChar → xs = ys := by
  intro xs
  induction xs with
  | nil =>
      intro ys _ _ h
      cases ys with
      | nil => rfl
      | cons y yt => simp at h
  | cons x xt ih =>
      intro ys hx hy h
      cases ys with
      | nil => simp at h
      | cons y yt =>
          simp only [List.map_cons, List.cons.injEq] at h
          have hxy := digitChar_inj_lt10 x (hx x (by simp)) y (hy y (by simp)) h.1
          have ht := ih yt (fun z hz => hx z (by simp [hz]))
            (fun z hz => hy z (by simp [hz])) h.2
          rw [hxy, ht]

theorem string_of_data_eq {s t : String} (h : s.data = t.data) : s = t := by
  cases s; cases t; simp_all

theorem digits_eq_of_rendered_eq {a b : Nat}
    (h : ((Nat.digits 10 a).map Nat.digitChar).reverse =
         ((Nat.digits 10 b).map Nat.digitChar).reverse) : a = b := by
  have hmap : (Nat.digits 10 a).map Nat.digitChar =
      (Nat.digits 10 b).map Nat.digitChar :=
    List.reverse_injective h
  have hdig : Nat.digits 10 a = Nat.digits 10 b :=
    map_digitChar_inj _ _ (fun x hx => Nat.digits_lt_base (by norm_num) hx)
      (fun y hy => Nat.digits_lt_base (by norm_num) hy) hmap
  have := congrArg (Nat.ofDigits 10) hdig
  rwa [Nat.ofDigits_digits, Nat.ofDigits_digits] at this

theorem natToDec_inj {a b : Nat} (h : natToDec a = natToDec b) : a = b := by
  have hdata : (natToDec a).data = (natToDec b).data := by rw [h]
  by_cases ha : a = 0 <;> by_cases hb : b = 0
  · rw [ha, hb]
  · exfalso
    rw [ha] at hdata
    simp only [natToDec, if_pos rfl, if_neg hb] at hdata
    rw [natToDecAux_eq_digits b b le_rfl] at hdata
    have hmap : (Nat.digits 10 b).map Nat.digitChar = ['0'] := by
      have := congrArg List.reverse hdata
      simpa using this.symm
    have hdig : Nat.digits 10 b = [0] := by
      cases hd : Nat.digits 10 b with
      | nil => rw [hd] at hmap; simp at hmap
      | cons d rest =>
          rw [hd] at hmap
          simp only [List.map_cons, List.cons.injEq] at hmap
          have hdlt : d < 10 :=
            Nat.digits_lt_base (by norm_num) (hd ▸ List.mem_cons_self d rest)
          have : d = 0 := digitChar_inj_lt10 d hdlt 0 (by norm_num) hmap.1
          have hrest : rest = [] := by
            have := hmap.2
            cases rest with
            | nil => rfl
            | cons r rt => simp at this
          rw [this, hrest]
    have := congrArg (Nat.ofDigits 10) hdig
    rw [Nat.ofDigits_digits] at this
    simp [Nat.ofDigits] at this
    exact hb this
  · exfalso
    rw [hb] at hdata
    simp only [natToDec, if_pos rfl, if_neg ha] at hdata
    rw [natToDecAux_eq_digits a a le_rfl] at hdata
    have hmap : (Nat.digits 10 a).map Nat.digitChar = ['0'] := by
      have := congrArg List.reverse hdata
      simpa using this
    have hdig : Nat.digits 10 a = [0] := by
      cases hd : Nat.digits 10 a with
      | nil => rw [hd] at hmap; simp at hmap
      | cons d rest =>
          rw [hd] at hmap
          simp only [List.map_cons, List.cons.injEq] at hmap
          have hdlt : d < 10 :=
            Nat.digits_lt_base (by norm_num) (hd ▸ List.mem_cons_self d rest)
          have : d = 0 := digitChar_inj_lt10 d hdlt 0 (by norm_num) hmap.1
          have hrest : rest = [] := by
            have := hmap.2
            cases rest with
            | nil => rfl
            | cons r rt => simp at this
          rw [this, hrest]
    have := congrArg (Nat.ofDigits 10) hdig
    rw [Nat.ofDigits_digits] at this
    simp [Nat.ofDigits] at this
    exact ha this
  · simp only [natToDec, if_neg ha, if_neg hb] at hdata
    rw [natToDecAux_eq_digits a a le_rfl,
      natToDecAux_eq_digits b b le_rfl] at hdata
    exact digits_eq_of_rendered_eq hdata

theorem archCand_inj {stem : String} {j k : Nat}
    (h : archCand stem j = archCand stem k) : j = k := by
  have hd : (archCand stem j).data = (archCand stem k).data := by rw [h]
  simp only [archCand, String.data_append, List.append_assoc] at hd
  have h1 := List.append_cancel_left hd
  have h2 := List.append_cancel_left h1
  have h3 := List.append_cancel_right h2
  exact natToDec_inj (string_of_data_eq h3)

theorem archiveLoop_some_unused {ex : String → Bool} {stem : String} :
    ∀ {fuel : Nat} {cand : String} {k : Nat} {r : String},
      archiveLoop ex stem fuel cand k = some r → ex r = false := by
  intro fuel
  induction fuel with
  | zero => intro cand k r h; cases h
  | succ f ih =>
      intro cand k r h
      cases hc : ex cand with
      | false =>
          simp only [archiveLoop, hc, Bool.false_eq_true, if_false,
            Option.some.injEq] at h
          rw [← h]
          exact hc
      | true =>
          simp only [archiveLoop, hc, if_true] at h
          exact ih h

theorem archiveLoop_none_checked {ex : String → Bool} {stem : String} :
    ∀ (fuel : Nat) (cand : String) (k : Nat),
      archiveLoop ex stem fuel cand k = none →
      (1 ≤ fuel → ex cand = true) ∧
      ∀ i, i + 2 ≤ fuel → ex (archCand stem (k + i)) = true := by
  intro fuel
  induction fuel with
  | zero =>
      intro cand k _
      exact ⟨fun h1 => absurd h1 (by omega), fun i hi => absurd hi (by omega)⟩
  | succ f ih =>
      intro cand k h
      cases hc : ex cand with
      | false => simp [archiveLoop, hc] at h
      | true =>
          simp only [archiveLoop, hc, if_true] at h
          obtain ⟨h1, h2⟩ := ih (archCand stem k) (k + 1) h
          refine ⟨fun _ => rfl, fun i hi => ?_⟩
          cases i with
          | zero => simpa using h1 (by omega)
          | succ j =>
              have := h2 j (by omega)
              rwa [show k + (j + 1) = k + 1 + j from by omega]

theorem archiveName_total (l : List String) (stem name : String) :
    ∃ r, archiveName (fun s => decide (s ∈ l)) name stem (l.length + 2) =
      some r := by
  cases hres : archiveName (fun s => decide (s ∈ l)) name stem (l.length + 2) with
  | some r => exact ⟨r, rfl⟩
  | none =>
      exfalso
      obtain ⟨_, h2⟩ := @archiveLoop_none_checked
        (fun s => decide (s ∈ l)) stem (l.length + 2) name 1 hres
      have hmem : ∀ i ≤ l.length, archCand stem (1 + i) ∈ l := by
        intro i hi
        have := h2 i (by omega)
        exact of_decide_eq_true this
      have hnd : ((List.range (l.length + 1)).map
          (fun i => archCand stem (1 + i))).Nodup := by
        refine List.Nodup.map ?_ (List.nodup_range _)
        intro i j hij
        have := archCand_inj hij
        omega
      have hsub : ((List.range (l.length + 1)).map
          (fun i => archCand stem (1 + i))) ⊆ l := by
        intro x hx
        rw [List.mem_map] at hx
        obtain ⟨i, hi, rfl⟩ := hx
        exact hmem i (Nat.lt_succ_iff.mp (List.mem_range.mp hi))
      have hlen := (List.subperm_of_subset hnd hsub).length_le
      simp only [List.length_map, List.length_range] at hlen
      omega

/-- C9: the archive move never overwrites: whatever the destination state,
a name returned by the collision loop is not among the existing names; for
every finite destination state enough fuel makes the loop return a name
(the while loop terminates having found an unused name); and concretely,
archiving paper.pdf with paper.pdf present yields paper_1.pdf, and with
paper.pdf and paper_1.pdf present yields paper_2.pdf. -/
theorem C9_archive_collision_naming :
    (∀ (ex : String → Bool) (stem : String) (fuel : Nat) (cand : String)
        (k : Nat) (r : String),
      archiveLoop ex stem fuel cand k = some r → ex r = false) ∧
    (∀ (l : List String) (stem name : String), ∃ r,
      archiveName (fun s => decide (s ∈ l)) name stem (l.length + 2) =
        some r ∧ r ∉ l) ∧
    archiveName (fun s => decide (s ∈ ["paper.pdf"])) "paper.pdf" "paper" 3 =
      some "paper_1.pdf" ∧
    archiveName (fun s => decide (s ∈ ["paper.pdf", "paper_1.pdf"]))
      "paper.pdf" "paper" 4 = some "paper_2.pdf" := by
  refine ⟨fun ex stem fuel cand k r h => archiveLoop_some_unused h, ?_,
    by decide, by decide⟩
  intro l stem name
  obtain ⟨r, hr⟩ := archiveName_total l stem name
  refine ⟨r, hr, ?_⟩
  have := archiveLoop_some_unused hr
  simpa using this

/-- C9 witness: applying the no-overwrite conjunct to the concrete run that
returns paper_1.pdf shows the returned name is not among the existing
ones. -/
theorem C9_archive_collision_naming_witness :
    decide ("paper_1.pdf" ∈ ["paper.pdf"]) = false :=
  C9_archive_collision_naming.1 (fun s => decide (s ∈ ["paper.pdf"]))
    "paper" 3 "paper.pdf" 1 "paper_1.pdf" (by decide)

end Triage
